import Mathlib

/-!
Verification of the dynamic-buffer core of the repository (boost::beast fork):
the growable segmented buffer `basic_multi_buffer` and the fixed circular
buffer `static_buffer_base`, as specified in `spec.md` and declared in
`src/include/boost/beast/core/multi_buffer.hpp` and
`src/include/boost/beast/core/static_buffer.hpp`.

Bytes are modelled as `Nat`, storage as `List Nat`.  A buffer-sequence view is
a list of spans `(offset, length)` into the buffer's backing storage; for the
growable buffer offsets are absolute positions in the flattened segment chain,
for the circular buffer they are positions in the fixed block.

The headers under `src/` carry only declarations and documentation comments;
the out-of-line member definitions live in `impl/` files that are not part of
`src/`.  Operations whose bodies are missing are therefore modelled from the
specification (and the doc comments in `src/`), and are marked
`Modelled from the spec:` below.  The few inline bodies present in `src/`
(`size`, `max_size`, the `max_size(n)` setter, `capacity` of the static
buffer, `cdata`) are translated directly.
-/

/-! ### Generic storage machinery: flat writes and span views -/

/-- Overwrite the contents of `l` starting at position `p` with the bytes of
`s`, clamped so that the length of `l` never changes (bytes of `s` that would
fall past the end of `l` are dropped). -/
def writeAt (l : List Nat) (p : Nat) (s : List Nat) : List Nat :=
  l.take p ++ s.take (l.length - p) ++ l.drop (p + s.length)

/-- Read one contiguous span `(offset, length)` out of the storage. -/
def readSpan (store : List Nat) (sp : Nat × Nat) : List Nat :=
  (store.drop sp.1).take sp.2

/-- Concatenate the bytes described by a buffer-sequence view. -/
def readSpans (store : List Nat) (sps : List (Nat × Nat)) : List Nat :=
  (sps.map (readSpan store)).flatten

/-- Write the byte sequence `s` into the spans of a view, in order: each span
receives the next `length` bytes of `s`. -/
def writeSpans : List Nat → List (Nat × Nat) → List Nat → List Nat
  | store, [], _ => store
  | store, sp :: sps, s =>
      writeSpans (writeAt store sp.1 (s.take sp.2)) sps (s.drop sp.2)

/-- Spans covering the flat range `[start, start+len)` of a segmented storage,
cut at the segment boundaries given by the segment lengths `Ls`; `base` is the
absolute offset at which the segments of `Ls` begin. -/
def cutSpans : List Nat → Nat → Nat → Nat → List (Nat × Nat)
  | [], _, _, _ => []
  | L :: Ls, base, start, len =>
      if len = 0 then []
      else if L ≤ start then cutSpans Ls (base + L) (start - L) len
      else (base + start, min (L - start) len) ::
           cutSpans Ls (base + L) 0 (len - min (L - start) len)

/-- Spans describing `len` bytes of a circular block of size `cap` starting at
offset `start`, split in two when the range wraps past the end of the block. -/
def wrapSpans (cap start len : Nat) : List (Nat × Nat) :=
  if len = 0 then []
  else if start + len ≤ cap then [(start, len)]
  else [(start, cap - start), (0, start + len - cap)]

/-! ### The fixed circular buffer: `static_buffer_base` -/

/-- Error kind of the buffer layer: the single capacity-exceeded error
(`std::length_error` in the source). -/
inductive buffer_error where
  | length_error
deriving DecidableEq

/-- State of `static_buffer_base` (fields from the class declaration in
`src/include/boost/beast/core/static_buffer.hpp`): a fixed block `mem` of
`capacity_` bytes, the offset `in_off_` where the readable region starts, the
readable length `in_size_` and the writable length `out_size_`; both regions
wrap modulo the capacity.  The block is modelled by its byte contents, so
`capacity_ = mem.length`. -/
structure static_buffer_base where
  mem : List Nat
  in_off_ : Nat
  in_size_ : Nat
  out_size_ : Nat
deriving DecidableEq

namespace static_buffer_base

/-- Constructor over a zeroed block of `n` bytes: creates the buffer empty
(`in_off_ = in_size_ = out_size_ = 0`), as the source constructor does. -/
def mk_fresh (n : Nat) : static_buffer_base :=
  ⟨List.replicate n 0, 0, 0, 0⟩

/-- Returns the number of readable bytes (inline in src: `return in_size_;`). -/
def size (b : static_buffer_base) : Nat := b.in_size_

/-- Maximum number of bytes that can ever be held (inline in src:
`return capacity_;`). -/
def max_size (b : static_buffer_base) : Nat := b.mem.length

/-- Total bytes backed by storage (inline in src: `return capacity_;`). -/
def capacity (b : static_buffer_base) : Nat := b.mem.length

/-- Bytes of the readable region, in logical order (starting at `in_off_`,
wrapping modulo the capacity). -/
def readBytes (b : static_buffer_base) : List Nat :=
  (b.mem.rotate b.in_off_).take b.in_size_

/-- Bytes of the writable region: the `out_size_` bytes that follow the
readable region, wrapping modulo the capacity. -/
def writableBytes (b : static_buffer_base) : List Nat :=
  ((b.mem.rotate b.in_off_).drop b.in_size_).take b.out_size_

/-- Readable and writable bytes together, in logical order. -/
def combined (b : static_buffer_base) : List Nat :=
  (b.mem.rotate b.in_off_).take (b.in_size_ + b.out_size_)

/-- Modelled from the spec: the buffer sequence returned by `data()`/`cdata()`
(impl missing from src) — at most two spans covering exactly the readable
region. -/
def dataSpans (b : static_buffer_base) : List (Nat × Nat) :=
  wrapSpans b.mem.length b.in_off_ b.in_size_

/-- Spans covering exactly the writable region (the view returned by the last
`prepare`), at most two when it wraps. -/
def prepareSpans (b : static_buffer_base) : List (Nat × Nat) :=
  wrapSpans b.mem.length ((b.in_off_ + b.in_size_) % b.mem.length) b.out_size_

/-- Modelled from the spec: `prepare(n)` (impl missing from src) — fails with
capacity-exceeded when `size() + n` exceeds `max_size()` (the capacity), and
otherwise makes the writable region exactly `n` bytes and returns the spans
over it; never allocates. -/
def prepare (n : Nat) (b : static_buffer_base) :
    Except buffer_error (static_buffer_base × List (Nat × Nat)) :=
  if b.in_size_ + n > b.mem.length then .error .length_error
  else
    let b' := { b with out_size_ := n }
    .ok (b', b'.prepareSpans)

/-- Modelled from the spec: `commit(n)` (impl missing from src) — appends
`min n out_size_` bytes from the start of the writable region to the end of
the readable region, discarding the remaining writable bytes. -/
def commit (n : Nat) (b : static_buffer_base) : static_buffer_base :=
  { b with in_size_ := b.in_size_ + min n b.out_size_, out_size_ := 0 }

/-- Modelled from the spec: `consume(n)` (impl missing from src) — removes
`min n in_size_` bytes from the front of the readable region by advancing the
start offset modulo the capacity. -/
def consume (n : Nat) (b : static_buffer_base) : static_buffer_base :=
  let m := min n b.in_size_
  { b with in_off_ := (b.in_off_ + m) % b.mem.length, in_size_ := b.in_size_ - m }

/-- Modelled from the spec: `grow(n)` (impl missing from src) — extends the
logical content by `n` bytes without going through the prepare/commit protocol,
with the same `size() + n > max_size()` check as `prepare`. -/
def grow (n : Nat) (b : static_buffer_base) :
    Except buffer_error static_buffer_base :=
  (b.prepare n).map (fun p => p.1.commit n)

/-- Modelled from the spec: `shrink(n)` (impl missing from src) — removes
`n` bytes from the end of the readable content, clamped to `size()`. -/
def shrink (n : Nat) (b : static_buffer_base) : static_buffer_base :=
  { b with in_size_ := b.in_size_ - n }

/-- Modelled from the spec: `clear()` (impl missing from src) — resets the
readable and writable bytes to empty; the capacity is not changed. -/
def clear (b : static_buffer_base) : static_buffer_base :=
  { b with in_off_ := 0, in_size_ := 0, out_size_ := 0 }

/-- Modelled from the spec: `data(pos, n)` (impl missing from src) — spans over
the underlying (readable plus writable) memory beginning at offset `pos`,
holding at most `n` bytes; empty when `pos` is past the end. -/
def dataAt (pos n : Nat) (b : static_buffer_base) : List (Nat × Nat) :=
  wrapSpans b.mem.length ((b.in_off_ + pos) % b.mem.length)
    (min n (b.in_size_ + b.out_size_ - pos))

/-- Write a byte sequence through a previously obtained view. -/
def write_view (sps : List (Nat × Nat)) (s : List Nat) (b : static_buffer_base) :
    static_buffer_base :=
  { b with mem := writeSpans b.mem sps s }

/-- Well-formedness of a circular-buffer state: the two regions fit in the
block, and the start offset is a valid index (or 0 for an empty block). -/
def WF (b : static_buffer_base) : Prop :=
  b.in_size_ + b.out_size_ ≤ b.mem.length ∧
    (b.in_off_ < b.mem.length ∨ b.in_off_ = 0)

instance (b : static_buffer_base) : Decidable (WF b) := by
  unfold WF
  exact inferInstance

end static_buffer_base

/-- Operations of the Dynamic Buffer contract on the circular buffer; `write`
writes through the current `prepare` view. -/
inductive static_op where
  | prepare (n : Nat)
  | commit (n : Nat)
  | consume (n : Nat)
  | grow (n : Nat)
  | shrink (n : Nat)
  | clear
  | write (s : List Nat)
deriving DecidableEq

namespace static_buffer_base

/-- Run one contract operation; a failing `prepare`/`grow` (throwing in C++)
leaves the buffer unchanged. -/
def apply (op : static_op) (b : static_buffer_base) : static_buffer_base :=
  match op with
  | .prepare n => match b.prepare n with | .ok p => p.1 | .error _ => b
  | .commit n => b.commit n
  | .consume n => b.consume n
  | .grow n => match b.grow n with | .ok b' => b' | .error _ => b
  | .shrink n => b.shrink n
  | .clear => b.clear
  | .write s => b.write_view b.prepareSpans s

/-- Run a sequence of contract operations, first one first. -/
def applyOps (ops : List static_op) (b : static_buffer_base) : static_buffer_base :=
  ops.foldl (fun st op => apply op st) b

end static_buffer_base

/-! ### The growable segmented buffer: `basic_multi_buffer` -/

/-- Remove the leading segments that lie entirely inside the consumed prefix
`p` of the flattened storage, returning the remaining segment lengths, the new
offset inside the first remaining segment, and the number of bytes released. -/
def dropFull : List Nat → Nat → List Nat × Nat × Nat
  | [], p => ([], p, 0)
  | L :: Ls, p =>
      if L ≤ p then
        let r := dropFull Ls (p - L)
        (r.1, r.2.1, r.2.2 + L)
      else (L :: Ls, p, 0)

/-- State of `basic_multi_buffer` (fields from the class declaration in
`src/include/boost/beast/core/multi_buffer.hpp`): the configured ceiling
`max_`, the chain of owned segments (kept as the list `seg_lens` of their byte
capacities, with `store` the flattened contents of the chain, so
`store.length = seg_lens.sum`), the readable offset `in_pos_` in the first
segment — kept here as an offset into the flattened storage, which coincides
since fully consumed segments are released — the readable size `in_size_`, and
the prepared writable size `out_size_` (the source's output cursor pair
`out_pos_`/`out_end_` delimits the same region). -/
structure basic_multi_buffer where
  max_ : Nat
  seg_lens : List Nat
  store : List Nat
  in_pos_ : Nat
  in_size_ : Nat
  out_size_ : Nat
deriving DecidableEq

namespace basic_multi_buffer

/-- Constructor with a size limit: zero capacity, `max_size() = limit`
(from the src doc of `basic_multi_buffer(std::size_t limit)`). -/
def mk_limit (limit : Nat) : basic_multi_buffer :=
  ⟨limit, [], [], 0, 0, 0⟩

/-- Returns the number of readable bytes (inline in src: `return in_size_;`). -/
def size (b : basic_multi_buffer) : Nat := b.in_size_

/-- Returns the maximum size ceiling (inline in src: `return max_;`). -/
def max_size (b : basic_multi_buffer) : Nat := b.max_

/-- Sets the maximum allowed capacity (inline in src: `max_ = n;`). -/
def set_max_size (n : Nat) (b : basic_multi_buffer) : basic_multi_buffer :=
  { b with max_ := n }

/-- Modelled from the spec: `capacity()` (impl missing from src) — total bytes,
readable and writable, that can be held without an allocation: the storage of
the chain that is still reachable past the consumed prefix. -/
def capacity (b : basic_multi_buffer) : Nat := b.store.length - b.in_pos_

/-- Bytes of the readable region, in logical order. -/
def readBytes (b : basic_multi_buffer) : List Nat :=
  (b.store.drop b.in_pos_).take b.in_size_

/-- Bytes of the writable region: the `out_size_` bytes that follow the
readable region in the flattened chain. -/
def writableBytes (b : basic_multi_buffer) : List Nat :=
  (b.store.drop (b.in_pos_ + b.in_size_)).take b.out_size_

/-- Readable and writable bytes together, in logical order. -/
def combined (b : basic_multi_buffer) : List Nat :=
  (b.store.drop b.in_pos_).take (b.in_size_ + b.out_size_)

/-- Modelled from the spec: the buffer sequence returned by `data()`/`cdata()`
(impl missing from src) — one span per segment overlapping the readable
region, cut at segment boundaries. -/
def dataSpans (b : basic_multi_buffer) : List (Nat × Nat) :=
  cutSpans b.seg_lens 0 b.in_pos_ b.in_size_

/-- Spans covering exactly the writable region (the view returned by the last
`prepare`), cut at segment boundaries. -/
def prepareSpans (b : basic_multi_buffer) : List (Nat × Nat) :=
  cutSpans b.seg_lens 0 (b.in_pos_ + b.in_size_) b.out_size_

/-- Size of the one segment appended when `prepare(n)` must allocate: at
least the missing amount, geometrically padded to `max 512`, clamped so the
capacity never exceeds the ceiling. -/
def alloc_len (n : Nat) (b : basic_multi_buffer) : Nat :=
  min (max 512 (b.in_pos_ + b.in_size_ + n - b.store.length))
    (b.max_ - b.capacity)

/-- State after a successful `prepare(n)`: the writable region becomes exactly
`n` bytes, appending one segment of `alloc_len` bytes when the chain is too
short. -/
def prepared (n : Nat) (b : basic_multi_buffer) : basic_multi_buffer :=
  if b.store.length < b.in_pos_ + b.in_size_ + n then
    { b with seg_lens := b.seg_lens ++ [b.alloc_len n],
             store := b.store ++ List.replicate (b.alloc_len n) 0,
             out_size_ := n }
  else { b with out_size_ := n }

/-- Modelled from the spec: `prepare(n)` (impl missing from src) — fails with
capacity-exceeded when `size() + n > max_size()`, leaving the buffer unchanged
(strong guarantee); otherwise makes the writable region exactly `n` bytes,
appending one segment when the chain is too short.  The spec leaves the
over-allocation geometry tunable; the model grows by at least the needed
amount, by `max 512 needed` when that still respects the ceiling. -/
def prepare (n : Nat) (b : basic_multi_buffer) :
    Except buffer_error (basic_multi_buffer × List (Nat × Nat)) :=
  if b.in_size_ + n > b.max_ then .error .length_error
  else .ok (b.prepared n, (b.prepared n).prepareSpans)

/-- Modelled from the spec: `commit(n)` (impl missing from src) — appends
`min n out_size_` bytes from the start of the writable region to the end of
the readable region, discarding the remaining writable bytes. -/
def commit (n : Nat) (b : basic_multi_buffer) : basic_multi_buffer :=
  { b with in_size_ := b.in_size_ + min n b.out_size_, out_size_ := 0 }

/-- Modelled from the spec: `consume(n)` (impl missing from src) — removes
`min n in_size_` bytes from the front of the readable region and releases
every segment that becomes fully consumed. -/
def consume (n : Nat) (b : basic_multi_buffer) : basic_multi_buffer :=
  let m := min n b.in_size_
  let r := dropFull b.seg_lens (b.in_pos_ + m)
  { b with seg_lens := r.1, store := b.store.drop r.2.2,
           in_pos_ := r.2.1, in_size_ := b.in_size_ - m }

/-- Modelled from the spec: `grow(n)` (impl missing from src) — extends the
logical content by `n` bytes without going through the prepare/commit
protocol, with the same `size() + n > max_size()` check as `prepare`. -/
def grow (n : Nat) (b : basic_multi_buffer) :
    Except buffer_error basic_multi_buffer :=
  (b.prepare n).map (fun p => p.1.commit n)

/-- Modelled from the spec: `shrink(n)` (impl missing from src) — removes
`n` bytes from the end of the readable content, clamped to `size()`. -/
def shrink (n : Nat) (b : basic_multi_buffer) : basic_multi_buffer :=
  { b with in_size_ := b.in_size_ - n }

/-- Modelled from the spec: `clear()` (impl missing from src) — sets the
readable and writable sizes to zero without changing capacity. -/
def clear (b : basic_multi_buffer) : basic_multi_buffer :=
  { b with in_size_ := 0, out_size_ := 0 }

/-- Modelled from the spec: `data(pos, n)` (impl missing from src) — spans over
the underlying (readable plus writable) memory beginning at offset `pos`,
holding at most `n` bytes; empty when `pos` is past the end. -/
def dataAt (pos n : Nat) (b : basic_multi_buffer) : List (Nat × Nat) :=
  cutSpans b.seg_lens 0 (b.in_pos_ + pos) (min n (b.in_size_ + b.out_size_ - pos))

/-- Write a byte sequence through a previously obtained view. -/
def write_view (sps : List (Nat × Nat)) (s : List Nat) (b : basic_multi_buffer) :
    basic_multi_buffer :=
  { b with store := writeSpans b.store sps s }

/-- Modelled from the spec: copy construction / copy assignment (impl missing
from src) — the copy holds exactly the readable bytes of the source in a
single segment, has the same `max_size`, and zero writable bytes. -/
def copy_from (b : basic_multi_buffer) : basic_multi_buffer :=
  { max_ := b.max_,
    seg_lens := if b.in_size_ = 0 then [] else [b.readBytes.length],
    store := b.readBytes,
    in_pos_ := 0, in_size_ := b.in_size_, out_size_ := 0 }

/-- Modelled from the spec: the source object after move construction / move
assignment (impl missing from src) — zero capacity, zero readable bytes, zero
writable bytes; the limit configuration stays. -/
def moved_from (b : basic_multi_buffer) : basic_multi_buffer :=
  { max_ := b.max_, seg_lens := [], store := [],
    in_pos_ := 0, in_size_ := 0, out_size_ := 0 }

/-- Modelled from the spec: move construction / move assignment (impl missing
from src) — returns the destination (which takes over the whole segment
chain) and the source as left after the move. -/
def move (b : basic_multi_buffer) : basic_multi_buffer × basic_multi_buffer :=
  (b, b.moved_from)

/-- Structural invariant of a multi-buffer state: the flattened contents match
the segment lengths, and the consumed prefix, readable region and writable
region fit in the chain. -/
def Inv (b : basic_multi_buffer) : Prop :=
  b.store.length = b.seg_lens.sum ∧
    b.in_pos_ + b.in_size_ + b.out_size_ ≤ b.store.length

/-- Well-formedness: the structural invariant plus the capacity ceiling. -/
def WF (b : basic_multi_buffer) : Prop :=
  b.Inv ∧ b.capacity ≤ b.max_

instance (b : basic_multi_buffer) : Decidable b.Inv := by
  unfold Inv
  exact inferInstance

instance (b : basic_multi_buffer) : Decidable b.WF := by
  unfold WF
  exact inferInstance

end basic_multi_buffer

/-- Operations of the Dynamic Buffer contract on the growable buffer,
including the `max_size(n)` setter; `write` writes through the current
`prepare` view. -/
inductive multi_op where
  | prepare (n : Nat)
  | commit (n : Nat)
  | consume (n : Nat)
  | grow (n : Nat)
  | shrink (n : Nat)
  | clear
  | set_max (n : Nat)
  | write (s : List Nat)
deriving DecidableEq

namespace basic_multi_buffer

/-- Run one contract operation; a failing `prepare`/`grow` (throwing in C++)
leaves the buffer unchanged. -/
def apply (op : multi_op) (b : basic_multi_buffer) : basic_multi_buffer :=
  match op with
  | .prepare n => match b.prepare n with | .ok p => p.1 | .error _ => b
  | .commit n => b.commit n
  | .consume n => b.consume n
  | .grow n => match b.grow n with | .ok b' => b' | .error _ => b
  | .shrink n => b.shrink n
  | .clear => b.clear
  | .set_max n => b.set_max_size n
  | .write s => b.write_view b.prepareSpans s

/-- Run a sequence of contract operations, first one first. -/
def applyOps (ops : List multi_op) (b : basic_multi_buffer) : basic_multi_buffer :=
  ops.foldl (fun st op => apply op st) b

end basic_multi_buffer

/-! ### Generic lemmas about flat writes and span views -/

theorem writeAt_length (l : List Nat) (p : Nat) (s : List Nat) :
    (writeAt l p s).length = l.length := by
  simp only [writeAt, List.length_append, List.length_take, List.length_drop]
  omega

theorem writeAt_nil (l : List Nat) (p : Nat) : writeAt l p [] = l := by
  simp [writeAt]

theorem writeSpans_length (sps : List (Nat × Nat)) :
    ∀ store s, (writeSpans store sps s).length = store.length := by
  induction sps with
  | nil => intro store s; rfl
  | cons sp sps ih =>
      intro store s
      rw [writeSpans, ih, writeAt_length]
/-- Composing two adjacent writes is one write of the concatenation. -/
theorem writeAt_writeAt (l : List Nat) (p : Nat) (a b : List Nat)
    (h : p + a.length ≤ l.length) :
    writeAt (writeAt l p a) (p + a.length) b = writeAt l p (a ++ b) := by
  have hta : a.take (l.length - p) = a := List.take_of_length_le (by omega)
  have hpre : (l.take p ++ a).length = p + a.length := by
    simp only [List.length_append, List.length_take]
    omega
  have h1 : writeAt l p a = (l.take p ++ a) ++ l.drop (p + a.length) := by
    rw [writeAt, hta, List.append_assoc]
  have hlen1 : (writeAt l p a).length = l.length := writeAt_length l p a
  have e1 : ((l.take p ++ a) ++ l.drop (p + a.length)).take (p + a.length)
      = l.take p ++ a := by
    conv_lhs => rw [← hpre]
    exact List.take_left ..
  have e2 : ((l.take p ++ a) ++ l.drop (p + a.length)).drop (p + a.length + b.length)
      = l.drop (p + a.length + b.length) := by
    rw [← List.drop_drop]
    conv_lhs => rw [← hpre, List.drop_left]
    rw [List.drop_drop, hpre]
  have e3 : (a ++ b).take (l.length - p)
      = a ++ b.take (l.length - (p + a.length)) := by
    rw [List.take_append_eq_append_take, hta, Nat.sub_sub]
  rw [writeAt, hlen1, h1, e1, e2, writeAt, e3, List.length_append,
    ← Nat.add_assoc]
  simp [List.append_assoc]

theorem readSpans_nil (store : List Nat) : readSpans store [] = [] := rfl

theorem readSpans_cons (store : List Nat) (sp : Nat × Nat) (sps : List (Nat × Nat)) :
    readSpans store (sp :: sps) = readSpan store sp ++ readSpans store sps := by
  simp [readSpans]

/-- Concatenating the spans produced by `cutSpans` yields exactly the flat
byte range they were cut from. -/
theorem readSpans_cutSpans (Ls : List Nat) :
    ∀ (base start len : Nat) (store : List Nat), store.length = base + Ls.sum →
      readSpans store (cutSpans Ls base start len)
        = (store.drop (base + start)).take len := by
  induction Ls with
  | nil =>
      intro base start len store h
      rw [cutSpans, readSpans_nil, List.drop_eq_nil_of_le (by simp at h; omega)]
      simp
  | cons L Ls ih =>
      intro base start len store h
      rw [cutSpans]
      by_cases h0 : len = 0
      · simp [h0, readSpans_nil]
      · simp only [if_neg h0]
        by_cases hL : L ≤ start
        · rw [if_pos hL, ih (base + L) (start - L) len store (by simp at h ⊢; omega)]
          congr 2
          omega
        · rw [if_neg hL, readSpans_cons,
            ih (base + L) 0 (len - min (L - start) len) store (by simp at h ⊢; omega)]
          rw [readSpan, Nat.add_zero]
          have hsplit : len = min (L - start) len + (len - min (L - start) len) := by
            omega
          conv_rhs => rw [hsplit, List.take_add]
          congr 1
          rcases Nat.le_total (L - start) len with hc | hc
          · have hm : min (L - start) len = L - start := by omega
            rw [hm, List.drop_drop]
            congr 2
            omega
          · have hm : min (L - start) len = len := by omega
            rw [hm]
            simp

/-- Every span cut from a segmented storage stays inside that storage. -/
theorem cutSpans_bound (Ls : List Nat) :
    ∀ (base start len : Nat) (sp : Nat × Nat), sp ∈ cutSpans Ls base start len →
      base ≤ sp.1 ∧ sp.1 + sp.2 ≤ base + Ls.sum := by
  induction Ls with
  | nil => intro base start len sp hsp; simp [cutSpans] at hsp
  | cons L Ls ih =>
      intro base start len sp hsp
      rw [cutSpans] at hsp
      by_cases h0 : len = 0
      · simp [h0] at hsp
      · simp only [if_neg h0] at hsp
        by_cases hL : L ≤ start
        · rw [if_pos hL] at hsp
          have := ih (base + L) (start - L) len sp hsp
          simp only [List.sum_cons]
          omega
        · rw [if_neg hL] at hsp
          rcases List.mem_cons.mp hsp with hhd | htl
          · subst hhd
            simp only [List.sum_cons]
            omega
          · have := ih (base + L) 0 (len - min (L - start) len) sp htl
            simp only [List.sum_cons]
            omega

/-- Reading a span that lies inside `store` ignores storage appended behind it. -/
theorem readSpan_append (store ext : List Nat) (sp : Nat × Nat)
    (h : sp.1 + sp.2 ≤ store.length) :
    readSpan (store ++ ext) sp = readSpan store sp := by
  rw [readSpan, readSpan, List.drop_append_of_le_length (by omega),
    List.take_append_of_le_length (by simp [List.length_drop]; omega)]

/-- Reading a view whose spans all lie inside `store` ignores appended storage. -/
theorem readSpans_append (store ext : List Nat) (sps : List (Nat × Nat))
    (h : ∀ sp ∈ sps, sp.1 + sp.2 ≤ store.length) :
    readSpans (store ++ ext) sps = readSpans store sps := by
  induction sps with
  | nil => rfl
  | cons sp sps ih =>
      rw [readSpans_cons, readSpans_cons,
        readSpan_append store ext sp (h sp (List.mem_cons_self ..)),
        ih (fun q hq => h q (List.mem_cons_of_mem _ hq))]

/-- Writing a byte sequence through the spans cut from the flat range
`[start, start+len)` is one flat write at that range. -/
theorem writeSpans_cutSpans (Ls : List Nat) :
    ∀ (base start len : Nat) (store s : List Nat),
      store.length = base + Ls.sum → s.length = len → start + len ≤ Ls.sum →
      writeSpans store (cutSpans Ls base start len) s
        = writeAt store (base + start) s := by
  induction Ls with
  | nil =>
      intro base start len store s hlen hs hle
      simp only [List.sum_nil, Nat.le_zero] at hle
      rw [cutSpans, writeSpans]
      have : s = [] := List.length_eq_zero.mp (by omega)
      rw [this, writeAt_nil]
  | cons L Ls ih =>
      intro base start len store s hlen hs hle
      rw [cutSpans]
      by_cases h0 : len = 0
      · rw [if_pos h0, writeSpans]
        have : s = [] := List.length_eq_zero.mp (by omega)
        rw [this, writeAt_nil]
      · simp only [if_neg h0]
        by_cases hL : L ≤ start
        · rw [if_pos hL,
            ih (base + L) (start - L) len store s (by simp at hlen ⊢; omega) hs
              (by simp at hle ⊢; omega)]
          congr 1
          omega
        · rw [if_neg hL, writeSpans]
          set t := min (L - start) len with ht
          have hts : t ≤ s.length := by omega
          have hwlen : (writeAt store (base + start) (s.take t)).length
              = store.length := writeAt_length ..
          rw [ih (base + L) 0 (len - t) _ (s.drop t)
            (by rw [hwlen]; simp at hlen ⊢; omega)
            (by simp [List.length_drop]; omega)
            (by simp at hle ⊢; omega)]
          rcases Nat.le_total (L - start) len with hc | hc
          · have hm : t = L - start := by omega
            have hb : base + L = (base + start) + (s.take t).length := by
              rw [List.length_take]
              omega
            rw [Nat.add_zero, hb, writeAt_writeAt store (base + start) _ _
              (by rw [List.length_take]; simp at hlen; omega),
              List.take_append_drop]
          · have hm : t = len := by omega
            have hd : s.drop t = [] := by
              rw [List.drop_eq_nil_of_le]
              omega
            rw [hd, writeAt_nil, hm, List.take_of_length_le (by omega)]

/-- Concatenating the (at most two) spans of a circular range equals reading
the rotated block: the wraparound split preserves byte order. -/
theorem readSpans_wrapSpans (mem : List Nat) (start len : Nat)
    (hstart : start < mem.length ∨ start = 0) (hlen : len ≤ mem.length) :
    readSpans mem (wrapSpans mem.length start len) = (mem.rotate start).take len := by
  rw [wrapSpans]
  by_cases h0 : len = 0
  · simp [h0, readSpans_nil]
  · simp only [if_neg h0]
    have hs : start ≤ mem.length := by omega
    rw [List.rotate_eq_drop_append_take hs]
    by_cases hw : start + len ≤ mem.length
    · rw [if_pos hw, readSpans_cons, readSpans_nil, List.append_nil, readSpan,
        List.take_append_of_le_length (by simp [List.length_drop]; omega)]
    · rw [if_neg hw, readSpans_cons, readSpans_cons, readSpans_nil,
        List.append_nil, readSpan, readSpan, List.drop_zero,
        List.take_append_eq_append_take]
      have h1 : (mem.drop start).take len = mem.drop start :=
        List.take_of_length_le (by simp [List.length_drop]; omega)
      have h2 : (mem.drop start).take (mem.length - start) = mem.drop start :=
        List.take_of_length_le (by simp [List.length_drop])
      rw [h1, h2, List.take_take, List.length_drop]
      congr 2
      omega

/-! ### Lemmas about the circular buffer -/

namespace static_buffer_base

/-- Concatenating the spans of `data()` yields exactly the readable bytes. -/
theorem readSpans_dataSpans_sb (b : static_buffer_base) (h : b.WF) :
    readSpans b.mem b.dataSpans = b.readBytes := by
  obtain ⟨h1, h2⟩ := h
  exact readSpans_wrapSpans b.mem b.in_off_ b.in_size_ h2 (by omega)

/-- Concatenating the spans of the `prepare` view yields exactly the writable
bytes. -/
theorem readSpans_prepareSpans_sb (b : static_buffer_base) (h : b.WF) :
    readSpans b.mem b.prepareSpans = b.writableBytes := by
  obtain ⟨h1, h2⟩ := h
  rcases Nat.eq_zero_or_pos b.mem.length with hc | hc
  · have hmem : b.mem = [] := List.length_eq_zero.mp hc
    have : b.out_size_ = 0 := by omega
    rw [prepareSpans, writableBytes, this, hmem]
    rfl
  · rw [prepareSpans,
      readSpans_wrapSpans b.mem ((b.in_off_ + b.in_size_) % b.mem.length)
        b.out_size_ (Or.inl (Nat.mod_lt _ hc)) (by omega),
      List.rotate_mod, ← List.rotate_rotate, writableBytes,
      List.rotate_eq_drop_append_take
        (by rw [List.length_rotate]; omega),
      List.take_append_of_le_length
        (by simp only [List.length_drop, List.length_rotate]; omega)]

/-- Effect of `commit` on the readable bytes: the first `min n out_size_`
writable bytes are appended, in order. -/
theorem readBytes_commit_sb (b : static_buffer_base) (n : Nat) :
    (b.commit n).readBytes = b.readBytes ++ b.writableBytes.take n := by
  rw [readBytes, writableBytes, List.take_take]
  show (b.mem.rotate b.in_off_).take (b.in_size_ + min n b.out_size_) = _
  rw [List.take_add, readBytes]

/-- Effect of `consume` on the readable bytes: the first `n` are removed. -/
theorem readBytes_consume_sb (b : static_buffer_base) (n : Nat) (h : b.WF) :
    (b.consume n).readBytes = b.readBytes.drop n := by
  obtain ⟨h1, h2⟩ := h
  have hmc : min n b.in_size_ ≤ b.mem.length := by omega
  show (b.mem.rotate ((b.in_off_ + min n b.in_size_) % b.mem.length)).take
        (b.in_size_ - min n b.in_size_)
      = ((b.mem.rotate b.in_off_).take b.in_size_).drop n
  rw [List.rotate_mod, ← List.rotate_rotate,
    List.rotate_eq_drop_append_take (by rw [List.length_rotate]; omega),
    List.take_append_of_le_length
      (by simp only [List.length_drop, List.length_rotate]; omega)]
  rcases Nat.le_total n b.in_size_ with hc | hc
  · have hmn : min n b.in_size_ = n := by omega
    rw [hmn, List.drop_take]
  · have hmn : min n b.in_size_ = b.in_size_ := by omega
    rw [hmn, Nat.sub_self, List.take_zero, Eq.comm, List.drop_eq_nil_of_le]
    simp only [List.length_take, List.length_rotate]
    omega

/-- Effect of `shrink` on the readable bytes: the last `n` are removed. -/
theorem readBytes_shrink_sb (b : static_buffer_base) (n : Nat) :
    (b.shrink n).readBytes = b.readBytes.take (b.in_size_ - n) := by
  show (b.mem.rotate b.in_off_).take (b.in_size_ - n)
      = ((b.mem.rotate b.in_off_).take b.in_size_).take (b.in_size_ - n)
  rw [List.take_take, Nat.min_eq_left (by omega)]

/-- Unfolding of a `prepare` call that is applied as a state transition. -/
theorem apply_prepare_sb (n : Nat) (b : static_buffer_base) :
    b.apply (.prepare n)
      = if b.in_size_ + n > b.mem.length then b
        else { b with out_size_ := n } := by
  by_cases hc : b.in_size_ + n > b.mem.length
  · simp [apply, prepare, hc]
  · simp [apply, prepare, hc]

/-- Unfolding of a `grow` call that is applied as a state transition. -/
theorem apply_grow_sb (n : Nat) (b : static_buffer_base) :
    b.apply (.grow n)
      = if b.in_size_ + n > b.mem.length then b
        else { b with in_size_ := b.in_size_ + n, out_size_ := 0 } := by
  by_cases hc : b.in_size_ + n > b.mem.length
  · simp [apply, grow, prepare, hc, Except.map]
  · simp [apply, grow, prepare, hc, Except.map, commit]

/-- No contract operation changes the block: the memory size is invariant. -/
theorem length_mem_apply (op : static_op) (b : static_buffer_base) :
    (b.apply op).mem.length = b.mem.length := by
  cases op with
  | prepare n =>
      rw [apply_prepare_sb]
      split
      · rfl
      · rfl
  | commit n => rfl
  | consume n => rfl
  | grow n =>
      rw [apply_grow_sb]
      split
      · rfl
      · rfl
  | shrink n => rfl
  | clear => rfl
  | write s =>
      show (writeSpans b.mem b.prepareSpans s).length = b.mem.length
      exact writeSpans_length ..

/-- Every contract operation preserves well-formedness of the circular
buffer. -/
theorem WF_apply_sb (op : static_op) (b : static_buffer_base) (h : b.WF) :
    (b.apply op).WF := by
  obtain ⟨h1, h2⟩ := h
  cases op with
  | prepare n =>
      rw [apply_prepare_sb]
      split
      · exact ⟨h1, h2⟩
      · next hc =>
          refine ⟨?_, h2⟩
          show b.in_size_ + n ≤ b.mem.length
          omega
  | commit n =>
      refine ⟨?_, h2⟩
      show b.in_size_ + min n b.out_size_ + 0 ≤ b.mem.length
      omega
  | consume n =>
      constructor
      · show b.in_size_ - min n b.in_size_ + b.out_size_ ≤ b.mem.length
        omega
      · show (b.in_off_ + min n b.in_size_) % b.mem.length < b.mem.length
          ∨ (b.in_off_ + min n b.in_size_) % b.mem.length = 0
        rcases Nat.eq_zero_or_pos b.mem.length with hc | hc
        · right
          rw [hc, Nat.mod_zero]
          omega
        · left
          exact Nat.mod_lt _ hc
  | grow n =>
      rw [apply_grow_sb]
      split
      · exact ⟨h1, h2⟩
      · next hc =>
          refine ⟨?_, h2⟩
          show b.in_size_ + n + 0 ≤ b.mem.length
          omega
  | shrink n =>
      refine ⟨?_, h2⟩
      show b.in_size_ - n + b.out_size_ ≤ b.mem.length
      omega
  | clear =>
      exact ⟨by show 0 + 0 ≤ b.mem.length; omega, Or.inr rfl⟩
  | write s =>
      have hl : (writeSpans b.mem b.prepareSpans s).length = b.mem.length :=
        writeSpans_length ..
      constructor
      · show b.in_size_ + b.out_size_ ≤ (writeSpans b.mem b.prepareSpans s).length
        omega
      · show b.in_off_ < (writeSpans b.mem b.prepareSpans s).length ∨ b.in_off_ = 0
        rw [hl]
        exact h2

end static_buffer_base

/-! ### Lemmas about the growable buffer -/

/-- Projections of `dropFull`: the dropped bytes plus the remaining offset
recover the requested prefix, and the dropped bytes come off the total. -/
theorem dropFull_spec (Ls : List Nat) :
    ∀ p : Nat, (dropFull Ls p).2.2 + (dropFull Ls p).2.1 = p
      ∧ (dropFull Ls p).1.sum + (dropFull Ls p).2.2 = Ls.sum := by
  induction Ls with
  | nil => intro p; exact ⟨Nat.zero_add p, rfl⟩
  | cons L Ls ih =>
      intro p
      rw [dropFull]
      split
      · next hL =>
          have := ih (p - L)
          refine ⟨?_, ?_⟩
          · simp only
            omega
          · simp only [List.sum_cons]
            omega
      · exact ⟨Nat.zero_add p, rfl⟩

namespace basic_multi_buffer

/-- Concatenating the spans of `data()` yields exactly the readable bytes. -/
theorem readSpans_dataSpans (b : basic_multi_buffer) (h : b.Inv) :
    readSpans b.store b.dataSpans = b.readBytes := by
  rw [dataSpans, readSpans_cutSpans b.seg_lens 0 b.in_pos_ b.in_size_ b.store
    (by rw [h.1, Nat.zero_add]), Nat.zero_add, readBytes]

/-- Concatenating the spans of the `prepare` view yields exactly the writable
bytes. -/
theorem readSpans_prepareSpans (b : basic_multi_buffer) (h : b.Inv) :
    readSpans b.store b.prepareSpans = b.writableBytes := by
  rw [prepareSpans, readSpans_cutSpans b.seg_lens 0 (b.in_pos_ + b.in_size_)
    b.out_size_ b.store (by rw [h.1, Nat.zero_add]), Nat.zero_add, writableBytes]

/-- Effect of `commit` on the readable bytes: the first `min n out_size_`
writable bytes are appended, in order. -/
theorem readBytes_commit (b : basic_multi_buffer) (n : Nat) :
    (b.commit n).readBytes = b.readBytes ++ b.writableBytes.take n := by
  show (b.store.drop b.in_pos_).take (b.in_size_ + min n b.out_size_) = _
  rw [List.take_add, readBytes, writableBytes, List.take_take, List.drop_drop]

/-- Effect of `consume` on the readable bytes: the first `n` are removed. -/
theorem readBytes_consume (b : basic_multi_buffer) (n : Nat) (h : b.Inv) :
    (b.consume n).readBytes = b.readBytes.drop n := by
  obtain ⟨h1, h2⟩ := h
  obtain ⟨hd1, hd2⟩ := dropFull_spec b.seg_lens (b.in_pos_ + min n b.in_size_)
  show ((b.store.drop (dropFull b.seg_lens (b.in_pos_ + min n b.in_size_)).2.2).drop
        (dropFull b.seg_lens (b.in_pos_ + min n b.in_size_)).2.1).take
        (b.in_size_ - min n b.in_size_)
      = ((b.store.drop b.in_pos_).take b.in_size_).drop n
  rw [List.drop_drop, hd1]
  rcases Nat.le_total n b.in_size_ with hc | hc
  · have hmn : min n b.in_size_ = n := by omega
    rw [hmn, List.drop_take, ← List.drop_drop]
  · have hmn : min n b.in_size_ = b.in_size_ := by omega
    rw [hmn, Nat.sub_self, List.take_zero, Eq.comm, List.drop_eq_nil_of_le]
    simp only [List.length_take, List.length_drop]
    omega

/-- Effect of `shrink` on the readable bytes: the last `n` are removed. -/
theorem readBytes_shrink (b : basic_multi_buffer) (n : Nat) :
    (b.shrink n).readBytes = b.readBytes.take (b.in_size_ - n) := by
  show (b.store.drop b.in_pos_).take (b.in_size_ - n) = _
  rw [readBytes, List.take_take, Nat.min_eq_left (by omega)]

/-- The storage after a successful `prepare` extends the old storage: existing
bytes keep their flat positions. -/
theorem prepared_store (n : Nat) (b : basic_multi_buffer) :
    ∃ ext, (b.prepared n).store = b.store ++ ext := by
  rw [prepared]
  split
  · exact ⟨List.replicate (b.alloc_len n) 0, rfl⟩
  · exact ⟨[], (List.append_nil b.store).symm⟩

/-- A successful `prepare` does not change the readable cursor or size, and
sets the writable size to the request. -/
theorem prepared_fields (n : Nat) (b : basic_multi_buffer) :
    (b.prepared n).in_pos_ = b.in_pos_ ∧ (b.prepared n).in_size_ = b.in_size_
      ∧ (b.prepared n).out_size_ = n ∧ (b.prepared n).max_ = b.max_ := by
  rw [prepared]
  split
  · exact ⟨rfl, rfl, rfl, rfl⟩
  · exact ⟨rfl, rfl, rfl, rfl⟩

/-- After a successful `prepare` the chain is long enough for the request, the
structural invariant is kept, and the capacity still respects the ceiling. -/
theorem prepared_WF (n : Nat) (b : basic_multi_buffer) (h : b.WF)
    (hn : b.in_size_ + n ≤ b.max_) :
    (b.prepared n).WF ∧ b.in_pos_ + b.in_size_ + n ≤ (b.prepared n).store.length := by
  obtain ⟨⟨h1, h2⟩, h3⟩ := h
  rw [capacity] at h3
  rw [prepared]
  split
  · next hshort =>
      have ha : b.in_pos_ + b.in_size_ + n - b.store.length ≤ b.alloc_len n := by
        rw [alloc_len, capacity]
        omega
      refine ⟨⟨⟨?_, ?_⟩, ?_⟩, ?_⟩
      · show (b.store ++ List.replicate (b.alloc_len n) 0).length
            = (b.seg_lens ++ [b.alloc_len n]).sum
        simp only [List.length_append, List.sum_append, List.length_replicate,
          List.sum_cons, List.sum_nil, h1]
        omega
      · show b.in_pos_ + b.in_size_ + n
            ≤ (b.store ++ List.replicate (b.alloc_len n) 0).length
        simp only [List.length_append, List.length_replicate]
        omega
      · show (b.store ++ List.replicate (b.alloc_len n) 0).length - b.in_pos_
            ≤ b.max_
        have hb : b.alloc_len n ≤ b.max_ - b.capacity := Nat.min_le_right ..
        rw [capacity] at hb
        simp only [List.length_append, List.length_replicate]
        omega
      · show b.in_pos_ + b.in_size_ + n
            ≤ (b.store ++ List.replicate (b.alloc_len n) 0).length
        simp only [List.length_append, List.length_replicate]
        omega
  · next hlong =>
      refine ⟨⟨⟨h1, ?_⟩, h3⟩, ?_⟩
      · show b.in_pos_ + b.in_size_ + n ≤ b.store.length
        omega
      · show b.in_pos_ + b.in_size_ + n ≤ b.store.length
        omega

/-- Unfolding of a `prepare` call that is applied as a state transition. -/
theorem apply_prepare (n : Nat) (b : basic_multi_buffer) :
    b.apply (.prepare n)
      = if b.in_size_ + n > b.max_ then b else b.prepared n := by
  by_cases hc : b.in_size_ + n > b.max_
  · simp [apply, prepare, hc]
  · simp [apply, prepare, hc]

/-- Unfolding of a `grow` call that is applied as a state transition. -/
theorem apply_grow (n : Nat) (b : basic_multi_buffer) :
    b.apply (.grow n)
      = if b.in_size_ + n > b.max_ then b else (b.prepared n).commit n := by
  by_cases hc : b.in_size_ + n > b.max_
  · simp [apply, grow, prepare, hc, Except.map]
  · simp [apply, grow, prepare, hc, Except.map]

/-- Explicit form of `consume` as a record update. -/
theorem consume_eq (n : Nat) (b : basic_multi_buffer) :
    b.consume n = { b with
      seg_lens := (dropFull b.seg_lens (b.in_pos_ + min n b.in_size_)).1,
      store := b.store.drop (dropFull b.seg_lens (b.in_pos_ + min n b.in_size_)).2.2,
      in_pos_ := (dropFull b.seg_lens (b.in_pos_ + min n b.in_size_)).2.1,
      in_size_ := b.in_size_ - min n b.in_size_ } := rfl

/-- Every contract operation other than the `max_size` setter preserves
well-formedness of the growable buffer. -/
theorem WF_apply (op : multi_op) (b : basic_multi_buffer) (h : b.WF)
    (hop : ∀ k, op ≠ .set_max k) : (b.apply op).WF := by
  obtain ⟨⟨h1, h2⟩, h3⟩ := h
  rw [capacity] at h3
  cases op with
  | prepare n =>
      rw [apply_prepare]
      split
      · exact ⟨⟨h1, h2⟩, h3⟩
      · next hc =>
          exact (prepared_WF n b ⟨⟨h1, h2⟩, by rw [capacity]; exact h3⟩
            (by omega)).1
  | commit n =>
      refine ⟨⟨h1, ?_⟩, h3⟩
      show b.in_pos_ + (b.in_size_ + min n b.out_size_) + 0 ≤ b.store.length
      omega
  | consume n =>
      show ((b.consume n).store.length = (b.consume n).seg_lens.sum
          ∧ (b.consume n).in_pos_ + (b.consume n).in_size_ + (b.consume n).out_size_
            ≤ (b.consume n).store.length)
        ∧ (b.consume n).store.length - (b.consume n).in_pos_ ≤ (b.consume n).max_
      obtain ⟨hd1, hd2⟩ := dropFull_spec b.seg_lens (b.in_pos_ + min n b.in_size_)
      rw [consume_eq]
      simp only [List.length_drop]
      refine ⟨⟨by omega, by omega⟩, by omega⟩
  | grow n =>
      rw [apply_grow]
      split
      · exact ⟨⟨h1, h2⟩, h3⟩
      · next hc =>
          obtain ⟨hwf, hfit⟩ := prepared_WF n b ⟨⟨h1, h2⟩, by rw [capacity]; exact h3⟩
            (by omega)
          obtain ⟨hp1, hp2, hp3, hp4⟩ := prepared_fields n b
          obtain ⟨⟨hq1, hq2⟩, hq3⟩ := hwf
          rw [capacity] at hq3
          refine ⟨⟨hq1, ?_⟩, ?_⟩
          · show (b.prepared n).in_pos_ + ((b.prepared n).in_size_
                + min n (b.prepared n).out_size_) + 0 ≤ (b.prepared n).store.length
            omega
          · show (b.prepared n).store.length - (b.prepared n).in_pos_
                ≤ (b.prepared n).max_
            exact hq3
  | shrink n =>
      refine ⟨⟨h1, ?_⟩, h3⟩
      show b.in_pos_ + (b.in_size_ - n) + b.out_size_ ≤ b.store.length
      omega
  | clear =>
      refine ⟨⟨h1, ?_⟩, h3⟩
      show b.in_pos_ + 0 + 0 ≤ b.store.length
      omega
  | set_max n => exact absurd rfl (hop n)
  | write s =>
      have hl : (writeSpans b.store b.prepareSpans s).length = b.store.length :=
        writeSpans_length ..
      refine ⟨⟨?_, ?_⟩, ?_⟩
      · show (writeSpans b.store b.prepareSpans s).length = b.seg_lens.sum
        omega
      · show b.in_pos_ + b.in_size_ + b.out_size_
            ≤ (writeSpans b.store b.prepareSpans s).length
        omega
      · show (writeSpans b.store b.prepareSpans s).length - b.in_pos_ ≤ b.max_
        omega

end basic_multi_buffer

/-! ### The claims -/

/-- C1: for every buffer of either strategy and every request `n` with
`size() + n > max_size()`, both `prepare(n)` and `grow(n)` signal the
capacity-exceeded error and leave the buffer's observable state (hence
`size()`, `capacity()` and all readable bytes) unchanged; when
`size() + n ≤ max_size()` neither signals an error. -/
theorem claim_C1 :
    (∀ (b : basic_multi_buffer) (n : Nat),
      (b.size + n > b.max_size →
        b.prepare n = .error .length_error
        ∧ b.grow n = .error .length_error
        ∧ b.apply (.prepare n) = b ∧ b.apply (.grow n) = b)
      ∧ (b.size + n ≤ b.max_size →
        (b.prepare n).isOk ∧ (b.grow n).isOk))
    ∧ (∀ (b : static_buffer_base) (n : Nat),
      (b.size + n > b.max_size →
        b.prepare n = .error .length_error
        ∧ b.grow n = .error .length_error
        ∧ b.apply (.prepare n) = b ∧ b.apply (.grow n) = b)
      ∧ (b.size + n ≤ b.max_size →
        (b.prepare n).isOk ∧ (b.grow n).isOk)) := by
  constructor
  · intro b n
    constructor
    · intro hgt
      rw [basic_multi_buffer.size, basic_multi_buffer.max_size] at hgt
      refine ⟨?_, ?_, ?_, ?_⟩
      · rw [basic_multi_buffer.prepare, if_pos hgt]
      · rw [basic_multi_buffer.grow, basic_multi_buffer.prepare, if_pos hgt]
        rfl
      · rw [basic_multi_buffer.apply_prepare, if_pos hgt]
      · rw [basic_multi_buffer.apply_grow, if_pos hgt]
    · intro hle
      rw [basic_multi_buffer.size, basic_multi_buffer.max_size] at hle
      have hc : ¬ (b.in_size_ + n > b.max_) := by omega
      constructor
      · rw [basic_multi_buffer.prepare, if_neg hc]
        rfl
      · rw [basic_multi_buffer.grow, basic_multi_buffer.prepare, if_neg hc]
        rfl
  · intro b n
    constructor
    · intro hgt
      rw [static_buffer_base.size, static_buffer_base.max_size] at hgt
      refine ⟨?_, ?_, ?_, ?_⟩
      · rw [static_buffer_base.prepare, if_pos hgt]
      · rw [static_buffer_base.grow, static_buffer_base.prepare, if_pos hgt]
        rfl
      · rw [static_buffer_base.apply_prepare_sb, if_pos hgt]
      · rw [static_buffer_base.apply_grow_sb, if_pos hgt]
    · intro hle
      rw [static_buffer_base.size, static_buffer_base.max_size] at hle
      have hc : ¬ (b.in_size_ + n > b.mem.length) := by omega
      constructor
      · rw [static_buffer_base.prepare, if_neg hc]
        rfl
      · rw [static_buffer_base.grow, static_buffer_base.prepare, if_neg hc]
        rfl

/-- Witness for C1: concrete failing and succeeding requests on both
strategies. -/
theorem claim_C1_witness :
    ((basic_multi_buffer.mk_limit 16).prepare 20
        = .error .length_error
      ∧ ((basic_multi_buffer.mk_limit 16).prepare 10).isOk)
    ∧ ((static_buffer_base.mk_fresh 8).prepare 9
        = .error .length_error
      ∧ ((static_buffer_base.mk_fresh 8).prepare 5).isOk) :=
  ⟨⟨((claim_C1.1 (basic_multi_buffer.mk_limit 16) 20).1 (by decide)).1,
    ((claim_C1.1 (basic_multi_buffer.mk_limit 16) 10).2 (by decide)).1⟩,
   ⟨((claim_C1.2 (static_buffer_base.mk_fresh 8) 9).1 (by decide)).1,
    ((claim_C1.2 (static_buffer_base.mk_fresh 8) 5).2 (by decide)).1⟩⟩

/-- C2 as stated is false on the code: the `max_size(n)` setter (inline in
src: `max_ = n;`) is no-throw and does not shrink storage, so immediately
after it the capacity may exceed the new ceiling.  Concretely, preparing 10
bytes in a fresh growable buffer with limit 16 allocates 16 bytes of
capacity, and `set_max_size 4` then leaves `capacity() = 16 > 4 =
max_size()`. -/
theorem claim_C2_counterexample :
    ¬ ((((basic_multi_buffer.mk_limit 16).apply (.prepare 10)).apply
          (.set_max 4)).capacity
        ≤ (((basic_multi_buffer.mk_limit 16).apply (.prepare 10)).apply
          (.set_max 4)).max_size) := by
  decide

/-- C2 (amended): after every Dynamic Buffer contract operation other than
`set_max_size`, a well-formed buffer of either strategy is well formed again
and satisfies `size() ≤ capacity() ≤ max_size()`; `set_max_size` itself still
preserves `size() ≤ capacity()`, but the new ceiling takes effect only on the
next capacity-changing call, so `capacity() ≤ max_size()` can fail right
after it. -/
theorem claim_C2_amended :
    (∀ (b : basic_multi_buffer) (op : multi_op), b.WF →
      (∀ k, op ≠ .set_max k) →
      (b.apply op).WF
      ∧ (b.apply op).size ≤ (b.apply op).capacity
      ∧ (b.apply op).capacity ≤ (b.apply op).max_size)
    ∧ (∀ (b : static_buffer_base) (op : static_op), b.WF →
      (b.apply op).WF
      ∧ (b.apply op).size ≤ (b.apply op).capacity
      ∧ (b.apply op).capacity ≤ (b.apply op).max_size)
    ∧ (∀ (b : basic_multi_buffer) (k : Nat), b.WF →
      (b.set_max_size k).size ≤ (b.set_max_size k).capacity) := by
  refine ⟨?_, ?_, ?_⟩
  · intro b op h hop
    have hwf := basic_multi_buffer.WF_apply op b h hop
    obtain ⟨⟨g1, g2⟩, g3⟩ := hwf
    refine ⟨⟨⟨g1, g2⟩, g3⟩, ?_, g3⟩
    rw [basic_multi_buffer.size, basic_multi_buffer.capacity]
    omega
  · intro b op h
    have hwf := static_buffer_base.WF_apply_sb op b h
    obtain ⟨g1, g2⟩ := hwf
    refine ⟨⟨g1, g2⟩, ?_, Nat.le_refl _⟩
    rw [static_buffer_base.size, static_buffer_base.capacity]
    omega
  · intro b k h
    obtain ⟨⟨g1, g2⟩, g3⟩ := h
    show b.in_size_ ≤ b.store.length - b.in_pos_
    omega

/-- Witness for C2 (amended): concrete operations on both strategies keep the
invariant. -/
theorem claim_C2_witness :
    (((basic_multi_buffer.mk_limit 16).apply (.prepare 10)).capacity
      ≤ ((basic_multi_buffer.mk_limit 16).apply (.prepare 10)).max_size)
    ∧ ((static_buffer_base.mk_fresh 8).apply (.commit 3)).capacity
      ≤ ((static_buffer_base.mk_fresh 8).apply (.commit 3)).max_size :=
  ⟨(claim_C2_amended.1 (basic_multi_buffer.mk_limit 16) (.prepare 10)
      (by decide) (fun k hk => multi_op.noConfusion hk)).2.2,
   (claim_C2_amended.2.1 (static_buffer_base.mk_fresh 8) (.commit 3)
      (by decide)).2.2⟩

/-- Writing `s` at the front of a sufficiently long storage makes `s` the
prefix of the storage. -/
theorem take_writeAt_zero (l s : List Nat) (h : s.length ≤ l.length) :
    (writeAt l 0 s).take s.length = s := by
  rw [writeAt, List.take_zero, List.nil_append, Nat.sub_zero,
    List.take_of_length_le h, Nat.zero_add, List.take_left]

/-- C3: starting from an empty buffer of either strategy, preparing `|S|`
bytes, writing `S` into the returned spans in order, committing `|S|`, and
concatenating the spans returned by `data()` yields exactly `S`, for every
byte sequence `S` with `|S| ≤ max_size()`. -/
theorem claim_C3 :
    (∀ (S : List Nat) (M : Nat), S.length ≤ M →
      ((basic_multi_buffer.mk_limit M).prepare S.length).isOk
      ∧ ∀ b1 sps,
        (basic_multi_buffer.mk_limit M).prepare S.length = .ok (b1, sps) →
        readSpans ((b1.write_view sps S).commit S.length).store
          ((b1.write_view sps S).commit S.length).dataSpans = S)
    ∧ (∀ (S : List Nat) (N : Nat), S.length ≤ N →
      ((static_buffer_base.mk_fresh N).prepare S.length).isOk
      ∧ ∀ b1 sps,
        (static_buffer_base.mk_fresh N).prepare S.length = .ok (b1, sps) →
        readSpans ((b1.write_view sps S).commit S.length).mem
          ((b1.write_view sps S).commit S.length).dataSpans = S) := by
  constructor
  · intro S M hM
    have hc : ¬ ((basic_multi_buffer.mk_limit M).in_size_ + S.length
        > (basic_multi_buffer.mk_limit M).max_) := by
      show ¬ (0 + S.length > M)
      omega
    constructor
    · rw [basic_multi_buffer.prepare, if_neg hc]
      rfl
    · intro b1 sps hok
      rw [basic_multi_buffer.prepare, if_neg hc] at hok
      simp only [Except.ok.injEq, Prod.mk.injEq] at hok
      obtain ⟨hb1, hsps⟩ := hok
      subst hb1
      subst hsps
      obtain ⟨⟨⟨hI1, hI2⟩, hcapB⟩, hfit⟩ :=
        basic_multi_buffer.prepared_WF S.length (basic_multi_buffer.mk_limit M)
          ⟨⟨rfl, Nat.le_refl 0⟩, Nat.zero_le M⟩ (by show 0 + S.length ≤ M; omega)
      have hp1 : ((basic_multi_buffer.mk_limit M).prepared S.length).in_pos_ = 0 :=
        (basic_multi_buffer.prepared_fields S.length _).1
      have hp2 : ((basic_multi_buffer.mk_limit M).prepared S.length).in_size_ = 0 :=
        (basic_multi_buffer.prepared_fields S.length _).2.1
      have hp3 : ((basic_multi_buffer.mk_limit M).prepared S.length).out_size_
          = S.length :=
        (basic_multi_buffer.prepared_fields S.length _).2.2.1
      have hfit0 : S.length
          ≤ ((basic_multi_buffer.mk_limit M).prepared S.length).store.length := by
        have : (basic_multi_buffer.mk_limit M).in_pos_
            + (basic_multi_buffer.mk_limit M).in_size_ + S.length
            = S.length := by
          show 0 + 0 + S.length = S.length
          omega
        omega
      have hb2 : (((basic_multi_buffer.mk_limit M).prepared S.length).write_view
            ((basic_multi_buffer.mk_limit M).prepared S.length).prepareSpans S).store
          = writeAt ((basic_multi_buffer.mk_limit M).prepared S.length).store 0 S := by
        show writeSpans ((basic_multi_buffer.mk_limit M).prepared S.length).store
            ((basic_multi_buffer.mk_limit M).prepared S.length).prepareSpans S
          = writeAt ((basic_multi_buffer.mk_limit M).prepared S.length).store 0 S
        rw [basic_multi_buffer.prepareSpans, hp1, hp2, hp3]
        have := writeSpans_cutSpans
          ((basic_multi_buffer.mk_limit M).prepared S.length).seg_lens
          0 (0 + 0) S.length
          ((basic_multi_buffer.mk_limit M).prepared S.length).store S
          (by omega) rfl (by omega)
        simpa using this
      have hInv3 : ((((basic_multi_buffer.mk_limit M).prepared S.length).write_view
          ((basic_multi_buffer.mk_limit M).prepared S.length).prepareSpans S).commit
            S.length).Inv := by
        constructor
        · show (((basic_multi_buffer.mk_limit M).prepared S.length).write_view
              ((basic_multi_buffer.mk_limit M).prepared S.length).prepareSpans
                S).store.length
            = ((basic_multi_buffer.mk_limit M).prepared S.length).seg_lens.sum
          rw [hb2, writeAt_length]
          exact hI1
        · show ((basic_multi_buffer.mk_limit M).prepared S.length).in_pos_
              + (((basic_multi_buffer.mk_limit M).prepared S.length).in_size_
                + min S.length
                  ((basic_multi_buffer.mk_limit M).prepared S.length).out_size_)
              + 0
            ≤ (((basic_multi_buffer.mk_limit M).prepared S.length).write_view
              ((basic_multi_buffer.mk_limit M).prepared S.length).prepareSpans
                S).store.length
          rw [hb2, writeAt_length, hp1, hp2, hp3]
          omega
      rw [basic_multi_buffer.readSpans_dataSpans _ hInv3]
      show ((((basic_multi_buffer.mk_limit M).prepared S.length).write_view
            ((basic_multi_buffer.mk_limit M).prepared S.length).prepareSpans
              S).store.drop
          ((basic_multi_buffer.mk_limit M).prepared S.length).in_pos_).take
          (((basic_multi_buffer.mk_limit M).prepared S.length).in_size_
            + min S.length
              ((basic_multi_buffer.mk_limit M).prepared S.length).out_size_)
        = S
      rw [hb2, hp1, hp2, hp3, List.drop_zero, Nat.zero_add, Nat.min_self,
        take_writeAt_zero _ _ (by omega)]
  · intro S N hN
    have hc : ¬ ((static_buffer_base.mk_fresh N).in_size_ + S.length
        > (static_buffer_base.mk_fresh N).mem.length) := by
      show ¬ (0 + S.length > (List.replicate N 0).length)
      rw [List.length_replicate]
      omega
    constructor
    · rw [static_buffer_base.prepare, if_neg hc]
      rfl
    · intro b1 sps hok
      rw [static_buffer_base.prepare, if_neg hc] at hok
      simp only [Except.ok.injEq, Prod.mk.injEq] at hok
      obtain ⟨hb1, hsps⟩ := hok
      subst hb1
      subst hsps
      by_cases hS : S.length = 0
      · have hSnil : S = [] := List.length_eq_zero.mp hS
        subst hSnil
        show readSpans _ (wrapSpans (List.replicate N 0).length 0 (0 + min 0 0)) = []
        rw [Nat.min_self, Nat.add_zero, wrapSpans, if_pos rfl, readSpans_nil]
      · have hsp : ({ static_buffer_base.mk_fresh N with
              out_size_ := S.length } : static_buffer_base).prepareSpans
            = [(0, S.length)] := by
          rw [static_buffer_base.prepareSpans]
          show wrapSpans (List.replicate N 0).length ((0 + 0) % (List.replicate N 0).length)
              S.length = [(0, S.length)]
          rw [List.length_replicate, Nat.zero_add, Nat.zero_mod, wrapSpans,
            if_neg hS, if_pos (by omega)]
        rw [hsp]
        have hmem : writeSpans (List.replicate N 0) [(0, S.length)] S
            = writeAt (List.replicate N 0) 0 S := by
          rw [writeSpans, writeSpans, List.take_length]
        have hlen : (writeAt (List.replicate N 0) 0 S).length = N := by
          rw [writeAt_length, List.length_replicate]
        have hWF3 : (({ static_buffer_base.mk_fresh N with out_size_ := S.length }
              : static_buffer_base).write_view [(0, S.length)] S).commit
                S.length |>.WF := by
          constructor
          · show 0 + min S.length S.length + 0
                ≤ (writeSpans (List.replicate N 0) [(0, S.length)] S).length
            rw [hmem, hlen]
            omega
          · right
            rfl
        rw [static_buffer_base.readSpans_dataSpans_sb _ hWF3]
        show ((writeSpans (List.replicate N 0) [(0, S.length)] S).rotate 0).take
            (0 + min S.length S.length) = S
        rw [hmem, List.rotate_zero, Nat.zero_add, Nat.min_self,
          take_writeAt_zero _ _ (by rw [List.length_replicate]; omega)]

/-- Witness for C3: a concrete three-byte round trip on both strategies. -/
theorem claim_C3_witness :
    (∀ b1 sps, (basic_multi_buffer.mk_limit 5).prepare 3 = .ok (b1, sps) →
      readSpans ((b1.write_view sps [7, 8, 9]).commit 3).store
        ((b1.write_view sps [7, 8, 9]).commit 3).dataSpans = [7, 8, 9])
    ∧ (∀ b1 sps, (static_buffer_base.mk_fresh 4).prepare 3 = .ok (b1, sps) →
      readSpans ((b1.write_view sps [7, 8, 9]).commit 3).mem
        ((b1.write_view sps [7, 8, 9]).commit 3).dataSpans = [7, 8, 9]) :=
  ⟨((claim_C3.1 [7, 8, 9] 5 (by decide)).2 : _),
   ((claim_C3.2 [7, 8, 9] 4 (by decide)).2 : _)⟩

/-- C4: for both strategies, a buffer sequence previously obtained from
`data()` keeps describing the same readable bytes at the same storage
locations across subsequent `prepare(n)` (successful) and `commit(n)` calls:
reading the old spans against the new storage still yields the old readable
bytes.  (`consume`, `shrink`, `clear` may move or drop storage and so may
invalidate views; no such stability is claimed for them.) -/
theorem claim_C4 :
    (∀ (b : basic_multi_buffer) (n : Nat), b.Inv →
      (∀ b' sps, b.prepare n = .ok (b', sps) →
        readSpans b'.store b.dataSpans = b.readBytes)
      ∧ readSpans (b.commit n).store b.dataSpans = b.readBytes)
    ∧ (∀ (b : static_buffer_base) (n : Nat), b.WF →
      (∀ b' sps, b.prepare n = .ok (b', sps) →
        readSpans b'.mem b.dataSpans = b.readBytes)
      ∧ readSpans (b.commit n).mem b.dataSpans = b.readBytes) := by
  constructor
  · intro b n hInv
    constructor
    · intro b' sps hok
      by_cases hc : b.in_size_ + n > b.max_
      · rw [basic_multi_buffer.prepare, if_pos hc] at hok
        exact Except.noConfusion hok
      · rw [basic_multi_buffer.prepare, if_neg hc] at hok
        simp only [Except.ok.injEq, Prod.mk.injEq] at hok
        obtain ⟨hb', hsps⟩ := hok
        subst hb'
        obtain ⟨ext, hext⟩ := basic_multi_buffer.prepared_store n b
        rw [hext, readSpans_append b.store ext b.dataSpans ?hbound,
          basic_multi_buffer.readSpans_dataSpans b hInv]
        case hbound =>
          intro sp hsp
          have := cutSpans_bound b.seg_lens 0 b.in_pos_ b.in_size_ sp hsp
          rw [hInv.1]
          omega
    · show readSpans b.store b.dataSpans = b.readBytes
      exact basic_multi_buffer.readSpans_dataSpans b hInv
  · intro b n hWF
    constructor
    · intro b' sps hok
      by_cases hc : b.in_size_ + n > b.mem.length
      · rw [static_buffer_base.prepare, if_pos hc] at hok
        exact Except.noConfusion hok
      · rw [static_buffer_base.prepare, if_neg hc] at hok
        simp only [Except.ok.injEq, Prod.mk.injEq] at hok
        obtain ⟨hb', hsps⟩ := hok
        subst hb'
        show readSpans b.mem b.dataSpans = b.readBytes
        exact static_buffer_base.readSpans_dataSpans_sb b hWF
    · show readSpans b.mem b.dataSpans = b.readBytes
      exact static_buffer_base.readSpans_dataSpans_sb b hWF

/-- Witness for C4: a concrete buffer with three readable bytes on each
strategy; its `data()` view reads the same bytes after `prepare`/`commit`. -/
theorem claim_C4_witness :
    (∀ b' sps,
      (((basic_multi_buffer.mk_limit 8).apply (.grow 3)).apply
          (.write [5, 6, 7])).prepare 2 = .ok (b', sps) →
      readSpans b'.store
          (((basic_multi_buffer.mk_limit 8).apply (.grow 3)).apply
            (.write [5, 6, 7])).dataSpans
        = (((basic_multi_buffer.mk_limit 8).apply (.grow 3)).apply
            (.write [5, 6, 7])).readBytes)
    ∧ readSpans ((((static_buffer_base.mk_fresh 8).apply (.grow 3)).apply
          (.write [5, 6, 7])).commit 2).mem
          (((static_buffer_base.mk_fresh 8).apply (.grow 3)).apply
            (.write [5, 6, 7])).dataSpans
        = (((static_buffer_base.mk_fresh 8).apply (.grow 3)).apply
            (.write [5, 6, 7])).readBytes :=
  ⟨(claim_C4.1 (((basic_multi_buffer.mk_limit 8).apply (.grow 3)).apply
      (.write [5, 6, 7])) 2 (by decide)).1,
   (claim_C4.2 (((static_buffer_base.mk_fresh 8).apply (.grow 3)).apply
      (.write [5, 6, 7])) 2 (by decide)).2⟩

/-- C5: for both strategies, `commit(n)` appends exactly `min n writable_size`
bytes from the start of the writable region to the end of the readable
region, and discards the rest of the writable region, which is empty
immediately afterwards. -/
theorem claim_C5 :
    (∀ (b : basic_multi_buffer) (n : Nat), b.Inv →
      (b.commit n).readBytes = b.readBytes ++ b.writableBytes.take n
      ∧ (b.writableBytes.take n).length = min n b.out_size_
      ∧ (b.commit n).writableBytes = []
      ∧ (b.commit n).out_size_ = 0)
    ∧ (∀ (b : static_buffer_base) (n : Nat), b.WF →
      (b.commit n).readBytes = b.readBytes ++ b.writableBytes.take n
      ∧ (b.writableBytes.take n).length = min n b.out_size_
      ∧ (b.commit n).writableBytes = []
      ∧ (b.commit n).out_size_ = 0) := by
  constructor
  · intro b n hInv
    obtain ⟨h1, h2⟩ := hInv
    refine ⟨basic_multi_buffer.readBytes_commit b n, ?_, ?_, rfl⟩
    · rw [basic_multi_buffer.writableBytes]
      simp only [List.length_take, List.length_drop]
      omega
    · show ((b.commit n).store.drop ((b.commit n).in_pos_ + (b.commit n).in_size_)).take 0
          = []
      rw [List.take_zero]
  · intro b n hWF
    obtain ⟨h1, h2⟩ := hWF
    refine ⟨static_buffer_base.readBytes_commit_sb b n, ?_, ?_, rfl⟩
    · rw [static_buffer_base.writableBytes]
      simp only [List.length_take, List.length_drop, List.length_rotate]
      omega
    · show (((b.commit n).mem.rotate (b.commit n).in_off_).drop
            (b.commit n).in_size_).take 0 = []
      rw [List.take_zero]

/-- Witness for C5: committing 2 of 3 prepared bytes on both strategies. -/
theorem claim_C5_witness :
    (((((basic_multi_buffer.mk_limit 8).apply (.prepare 3)).apply
          (.write [4, 5, 6])).commit 2).readBytes
        = (((basic_multi_buffer.mk_limit 8).apply (.prepare 3)).apply
            (.write [4, 5, 6])).readBytes
          ++ ((((basic_multi_buffer.mk_limit 8).apply (.prepare 3)).apply
            (.write [4, 5, 6])).writableBytes).take 2)
    ∧ ((((static_buffer_base.mk_fresh 4).apply (.prepare 3)).apply
          (.write [4, 5, 6])).commit 2).writableBytes = [] :=
  ⟨(claim_C5.1 (((basic_multi_buffer.mk_limit 8).apply (.prepare 3)).apply
      (.write [4, 5, 6])) 2 (by decide)).1,
   (claim_C5.2 (((static_buffer_base.mk_fresh 4).apply (.prepare 3)).apply
      (.write [4, 5, 6])) 2 (by decide)).2.2.1⟩

/-- C6: for both strategies, `consume(n)` removes exactly `min n size()`
bytes from the front of the readable region without signalling an error: the
remaining readable bytes are the former bytes at offsets at least `n`, in
their original order, and `n ≥ size()` always leaves `size() = 0`. -/
theorem claim_C6 :
    (∀ (b : basic_multi_buffer) (n : Nat), b.Inv →
      (b.consume n).readBytes = b.readBytes.drop n
      ∧ (b.consume n).size = b.size - min n b.size
      ∧ (n ≥ b.size → (b.consume n).size = 0))
    ∧ (∀ (b : static_buffer_base) (n : Nat), b.WF →
      (b.consume n).readBytes = b.readBytes.drop n
      ∧ (b.consume n).size = b.size - min n b.size
      ∧ (n ≥ b.size → (b.consume n).size = 0)) := by
  constructor
  · intro b n hInv
    refine ⟨basic_multi_buffer.readBytes_consume b n hInv, rfl, ?_⟩
    intro hge
    rw [basic_multi_buffer.size] at hge ⊢
    show b.in_size_ - min n b.in_size_ = 0
    omega
  · intro b n hWF
    refine ⟨static_buffer_base.readBytes_consume_sb b n hWF, rfl, ?_⟩
    intro hge
    rw [static_buffer_base.size] at hge ⊢
    show b.in_size_ - min n b.in_size_ = 0
    omega

/-- Witness for C6: consuming 2 of 3 readable bytes, and over-consuming, on
both strategies. -/
theorem claim_C6_witness :
    ((((basic_multi_buffer.mk_limit 8).apply (.grow 3)).apply
        (.write [4, 5, 6])).consume 2).readBytes
      = ((((basic_multi_buffer.mk_limit 8).apply (.grow 3)).apply
        (.write [4, 5, 6])).readBytes).drop 2
    ∧ (((static_buffer_base.mk_fresh 4).apply (.grow 3)).consume 7).size = 0 :=
  ⟨(claim_C6.1 (((basic_multi_buffer.mk_limit 8).apply (.grow 3)).apply
      (.write [4, 5, 6])) 2 (by decide)).1,
   (claim_C6.2 ((static_buffer_base.mk_fresh 4).apply (.grow 3)) 7
      (by decide)).2.2 (by decide)⟩

/-- C7: for both strategies, `data(pos, n)` returns a buffer sequence whose
concatenated bytes are exactly the byte range `[pos, pos+n)` of the combined
readable-plus-writable underlying storage (clamped to what exists). -/
theorem claim_C7 :
    (∀ (b : basic_multi_buffer) (pos n : Nat), b.Inv →
      readSpans b.store (b.dataAt pos n) = (b.combined.drop pos).take n)
    ∧ (∀ (b : static_buffer_base) (pos n : Nat), b.WF →
      readSpans b.mem (b.dataAt pos n) = (b.combined.drop pos).take n) := by
  constructor
  · intro b pos n hInv
    rw [basic_multi_buffer.dataAt,
      readSpans_cutSpans b.seg_lens 0 (b.in_pos_ + pos)
        (min n (b.in_size_ + b.out_size_ - pos)) b.store
        (by rw [hInv.1, Nat.zero_add]),
      Nat.zero_add, basic_multi_buffer.combined, List.drop_take,
      List.drop_drop, List.take_take]
  · intro b pos n hWF
    obtain ⟨h1, h2⟩ := hWF
    rcases Nat.le_total (b.in_size_ + b.out_size_) pos with hc | hc
    · have hz : min n (b.in_size_ + b.out_size_ - pos) = 0 := by omega
      rw [static_buffer_base.dataAt, hz, wrapSpans, if_pos rfl, readSpans_nil,
        Eq.comm, List.take_eq_nil_iff]
      right
      rw [List.drop_eq_nil_iff, static_buffer_base.combined,
        List.length_take, List.length_rotate]
      omega
    · rcases Nat.eq_zero_or_pos b.mem.length with h0 | h0
      · have hz : min n (b.in_size_ + b.out_size_ - pos) = 0 := by omega
        rw [static_buffer_base.dataAt, hz, wrapSpans, if_pos rfl, readSpans_nil,
          Eq.comm, List.take_eq_nil_iff]
        right
        rw [List.drop_eq_nil_iff, static_buffer_base.combined,
          List.length_take, List.length_rotate]
        omega
      · rw [static_buffer_base.dataAt,
          readSpans_wrapSpans b.mem ((b.in_off_ + pos) % b.mem.length)
            (min n (b.in_size_ + b.out_size_ - pos))
            (Or.inl (Nat.mod_lt _ h0)) (by omega),
          List.rotate_mod, ← List.rotate_rotate,
          List.rotate_eq_drop_append_take
            (by rw [List.length_rotate]; omega),
          List.take_append_of_le_length
            (by simp only [List.length_drop, List.length_rotate]; omega),
          static_buffer_base.combined, List.drop_take, List.take_take]

/-- Witness for C7: a two-byte slice across the readable/writable boundary on
both strategies. -/
theorem claim_C7_witness :
    readSpans (((basic_multi_buffer.mk_limit 8).apply (.grow 2)).apply
        (.prepare 2)).store
        ((((basic_multi_buffer.mk_limit 8).apply (.grow 2)).apply
          (.prepare 2)).dataAt 1 2)
      = (((((basic_multi_buffer.mk_limit 8).apply (.grow 2)).apply
          (.prepare 2)).combined).drop 1).take 2
    ∧ readSpans ((((static_buffer_base.mk_fresh 4).apply (.grow 3)).consume
          2).apply (.prepare 3)).mem
        (((((static_buffer_base.mk_fresh 4).apply (.grow 3)).consume 2).apply
          (.prepare 3)).dataAt 1 2)
      = ((((((static_buffer_base.mk_fresh 4).apply (.grow 3)).consume 2).apply
          (.prepare 3)).combined).drop 1).take 2 :=
  ⟨claim_C7.1 (((basic_multi_buffer.mk_limit 8).apply (.grow 2)).apply
      (.prepare 2)) 1 2 (by decide),
   claim_C7.2 ((((static_buffer_base.mk_fresh 4).apply (.grow 3)).consume
      2).apply (.prepare 3)) 1 2 (by decide)⟩

/-- C8: copying a growable buffer whose readable content is `S` produces a
well-formed buffer whose `data()` concatenates to exactly `S`, with the same
size and limit, and with zero writable capacity
(`capacity() = size()`, no writable bytes).  Mutations in the model are
value-level state transitions, so a mutation of the copy cannot change the
original: the two states share no mutable storage. -/
theorem claim_C8 (b : basic_multi_buffer) (h : b.Inv) :
    b.copy_from.readBytes = b.readBytes
    ∧ readSpans b.copy_from.store b.copy_from.dataSpans = b.readBytes
    ∧ b.copy_from.size = b.size
    ∧ b.copy_from.max_size = b.max_size
    ∧ b.copy_from.capacity = b.copy_from.size
    ∧ b.copy_from.writableBytes = []
    ∧ b.copy_from.out_size_ = 0
    ∧ b.copy_from.Inv := by
  obtain ⟨h1, h2⟩ := h
  have hlen : b.readBytes.length = b.in_size_ := by
    rw [basic_multi_buffer.readBytes]
    simp only [List.length_take, List.length_drop]
    omega
  have hread : b.copy_from.readBytes = b.readBytes := by
    show (b.readBytes.drop 0).take b.in_size_ = b.readBytes
    rw [List.drop_zero, List.take_of_length_le (by omega)]
  have hInv : b.copy_from.Inv := by
    constructor
    · show b.readBytes.length
          = (if b.in_size_ = 0 then [] else [b.readBytes.length]).sum
      split
      · next hz =>
          rw [hlen, hz]
          rfl
      · rw [List.sum_cons, List.sum_nil]
        omega
    · show 0 + b.in_size_ + 0 ≤ b.readBytes.length
      omega
  refine ⟨hread, ?_, rfl, rfl, ?_, ?_, rfl, hInv⟩
  · rw [basic_multi_buffer.readSpans_dataSpans _ hInv, hread]
  · show b.readBytes.length - 0 = b.in_size_
    omega
  · show (b.readBytes.drop (0 + b.in_size_)).take 0 = []
    rw [List.take_zero]

/-- Witness for C8: copying a concrete growable buffer holding three bytes. -/
theorem claim_C8_witness :
    ((((basic_multi_buffer.mk_limit 8).apply (.grow 3)).apply
        (.write [4, 5, 6])).copy_from).readBytes
      = (((basic_multi_buffer.mk_limit 8).apply (.grow 3)).apply
        (.write [4, 5, 6])).readBytes
    ∧ ((((basic_multi_buffer.mk_limit 8).apply (.grow 3)).apply
        (.write [4, 5, 6])).copy_from).capacity
      = ((((basic_multi_buffer.mk_limit 8).apply (.grow 3)).apply
        (.write [4, 5, 6])).copy_from).size :=
  ⟨(claim_C8 (((basic_multi_buffer.mk_limit 8).apply (.grow 3)).apply
      (.write [4, 5, 6])) (by decide)).1,
   (claim_C8 (((basic_multi_buffer.mk_limit 8).apply (.grow 3)).apply
      (.write [4, 5, 6])) (by decide)).2.2.2.2.1⟩

/-- C9: after a move from a growable buffer `b`, the moved-from source has
zero capacity, zero readable bytes and zero writable bytes, while the
destination holds exactly the former readable content and the former
`max_size`. -/
theorem claim_C9 (b : basic_multi_buffer) :
    b.move.2.capacity = 0
    ∧ b.move.2.size = 0
    ∧ b.move.2.writableBytes = []
    ∧ b.move.2.out_size_ = 0
    ∧ b.move.1.readBytes = b.readBytes
    ∧ b.move.1.max_size = b.max_size := by
  exact ⟨rfl, rfl, rfl, rfl, rfl, rfl⟩

/-- Running any sequence of contract operations never changes the block size
of a circular buffer. -/
theorem length_mem_applyOps (ops : List static_op) :
    ∀ b : static_buffer_base, (b.applyOps ops).mem.length = b.mem.length := by
  induction ops with
  | nil => intro b; rfl
  | cons op ops ih =>
      intro b
      show ((b.apply op).applyOps ops).mem.length = b.mem.length
      rw [ih (b.apply op), static_buffer_base.length_mem_apply]

/-- C10: for a fixed circular buffer over a block of `N` bytes, every
sequence of Dynamic Buffer contract operations leaves `capacity() = N` and
`max_size() = N`: no allocation or release ever happens. -/
theorem claim_C10 (N : Nat) (ops : List static_op) :
    ((static_buffer_base.mk_fresh N).applyOps ops).capacity = N
    ∧ ((static_buffer_base.mk_fresh N).applyOps ops).max_size = N := by
  have h : ((static_buffer_base.mk_fresh N).applyOps ops).mem.length = N := by
    rw [length_mem_applyOps ops (static_buffer_base.mk_fresh N)]
    show (List.replicate N 0).length = N
    rw [List.length_replicate]
  exact ⟨h, h⟩
